import Mathlib

/-!
Verification of the spatiotemporal replay query engine of
jolly-hacker-sea-watcher (AIS Data API) and of its ship-report web form.

The engine (`main.py`) is described by the repository README
(`src/unnamed/part_000`) and by the specification; its Python source is not
part of the repository snapshot, so the engine definitions below are
modelled from the specification's algorithm descriptions.  The web-form
definitions are translated from
`src/web-app/src/components/ship-report-form.tsx`.
-/

namespace SeaWatcher

/-- Modelled from the spec: a `PositionReport` (§3) — one observed state of
a vessel at an instant.  Timestamps are absolute seconds on the source
timeline; coordinates are degrees. -/
structure PositionReport where
  vesselId : Nat
  timestamp : Int
  lat : ℚ
  lon : ℚ
deriving DecidableEq, Repr

/-- Two consecutive kept tail points must be at least 60 seconds apart
(§4.4 step 2). -/
def gap60 (a b : PositionReport) : Prop := a.timestamp + 60 ≤ b.timestamp

instance : DecidableRel gap60 :=
  fun a b => inferInstanceAs (Decidable (a.timestamp + 60 ≤ b.timestamp))

/-- A tail is spaced when every adjacent pair is at least 60 seconds apart. -/
def Spaced (l : List PositionReport) : Prop := l.Chain' gap60

instance (l : List PositionReport) : Decidable (Spaced l) :=
  inferInstanceAs (Decidable (l.Chain' gap60))

/-- Timestamp order on reports. -/
def tsLE (a b : PositionReport) : Prop := a.timestamp ≤ b.timestamp

instance : DecidableRel tsLE :=
  fun a b => inferInstanceAs (Decidable (a.timestamp ≤ b.timestamp))

instance : IsTotal PositionReport tsLE := ⟨fun a b => le_total a.timestamp b.timestamp⟩

instance : IsTrans PositionReport tsLE := ⟨fun _ _ _ h h' => le_trans h h'⟩

/-- A report sequence sorted ascending (non-decreasing) by timestamp. -/
def SortedByTime (l : List PositionReport) : Prop := l.Pairwise tsLE

instance (l : List PositionReport) : Decidable (SortedByTime l) :=
  inferInstanceAs (Decidable (l.Pairwise tsLE))

/-- Modelled from the spec: the scanning phase of the thinning pass
(§4.4 step 2, `main.py` absent from src/).  `last` is the timestamp of the
last kept point; a scanned point is kept only if its timestamp is at least
60 seconds after `last`, and the reference point is never reset. -/
def thinFrom (last : Int) : List PositionReport → List PositionReport
  | [] => []
  | p :: ps =>
    if last + 60 ≤ p.timestamp then p :: thinFrom p.timestamp ps
    else thinFrom last ps

/-- Modelled from the spec: the thinning pass (§4.4 step 2) — always keep
the first point of the window, then scan left to right keeping a point only
when it is at least 60 seconds after the last kept point. -/
def thinTail : List PositionReport → List PositionReport
  | [] => []
  | p :: ps => p :: thinFrom p.timestamp ps

theorem thinFrom_sublist (l : List PositionReport) :
    ∀ last : Int, (thinFrom last l).Sublist l := by
  induction l with
  | nil => intro last; simp [thinFrom]
  | cons p ps ih =>
    intro last
    simp only [thinFrom]
    split
    · exact (ih p.timestamp).cons₂ p
    · exact (ih last).cons p

theorem thinTail_sublist (l : List PositionReport) : (thinTail l).Sublist l := by
  cases l with
  | nil => simp [thinTail]
  | cons p ps => exact (thinFrom_sublist ps p.timestamp).cons₂ p

theorem thinFrom_head_ge (l : List PositionReport) :
    ∀ (last : Int) (q : PositionReport),
      (thinFrom last l).head? = some q → last + 60 ≤ q.timestamp := by
  induction l with
  | nil => intro last q h; simp [thinFrom] at h
  | cons p ps ih =>
    intro last q h
    simp only [thinFrom] at h
    split at h
    · simp only [List.head?_cons, Option.some.injEq] at h
      subst h; assumption
    · exact ih last q h

theorem thinFrom_chain (l : List PositionReport) :
    ∀ last : Int, (thinFrom last l).Chain' gap60 := by
  induction l with
  | nil => intro last; simp [thinFrom]
  | cons p ps ih =>
    intro last
    simp only [thinFrom]
    split
    · exact List.chain'_cons'.mpr
        ⟨fun q hq => thinFrom_head_ge ps p.timestamp q hq, ih p.timestamp⟩
    · exact ih last

theorem thinTail_spaced (l : List PositionReport) : Spaced (thinTail l) := by
  cases l with
  | nil => simp [thinTail, Spaced]
  | cons p ps =>
    exact List.chain'_cons'.mpr
      ⟨fun q hq => thinFrom_head_ge ps p.timestamp q hq, thinFrom_chain ps p.timestamp⟩

theorem thinTail_head (l : List PositionReport) : (thinTail l).head? = l.head? := by
  cases l <;> simp [thinTail]

theorem thinFrom_of_spaced (l : List PositionReport) :
    ∀ last : Int, (∀ q : PositionReport, l.head? = some q → last + 60 ≤ q.timestamp) →
      l.Chain' gap60 → thinFrom last l = l := by
  induction l with
  | nil => intro last _ _; simp [thinFrom]
  | cons p ps ih =>
    intro last hhead hchain
    have hp : last + 60 ≤ p.timestamp := hhead p rfl
    have hrest := (List.chain'_cons'.mp hchain).2
    have hnext := (List.chain'_cons'.mp hchain).1
    simp only [thinFrom, if_pos hp]
    congr 1
    exact ih p.timestamp (fun q hq => hnext q hq) hrest

theorem thinTail_of_spaced (l : List PositionReport) (h : Spaced l) : thinTail l = l := by
  cases l with
  | nil => simp [thinTail]
  | cons p ps =>
    simp only [thinTail, List.cons.injEq, true_and]
    exact thinFrom_of_spaced ps p.timestamp
      (fun q hq => (List.chain'_cons'.mp h).1 q hq) (List.chain'_cons'.mp h).2

theorem thinFrom_maximal (l : List PositionReport) :
    ∀ (last : Int) (s : List PositionReport), SortedByTime l → s.Sublist l →
      s.Chain' gap60 →
      (∀ q : PositionReport, s.head? = some q → last + 60 ≤ q.timestamp) →
      s.length ≤ (thinFrom last l).length := by
  induction l with
  | nil =>
    intro last s _ hsub _ _
    simp [List.sublist_nil.mp hsub, thinFrom]
  | cons p ps ih =>
    intro last s hsorted hsub hchain hhead
    have hps : SortedByTime ps := (List.pairwise_cons.mp hsorted).2
    have hple : ∀ q ∈ ps, p.timestamp ≤ q.timestamp :=
      fun q hq => (List.pairwise_cons.mp hsorted).1 q hq
    simp only [thinFrom]
    split
    · -- p is kept; new reference is p.timestamp
      rename_i hkeep
      cases hsub with
      | cons _ hsub' =>
        -- s avoids p entirely, s <+ ps
        cases s with
        | nil => simp
        | cons q qs =>
          have hq_mem : q ∈ ps := hsub'.subset (List.mem_cons_self q qs)
          have hq_ge : p.timestamp ≤ q.timestamp := hple q hq_mem
          have hqs : qs.Sublist ps := (List.sublist_cons_self q qs).trans hsub'
          have hqs_chain : qs.Chain' gap60 := (List.chain'_cons'.mp hchain).2
          have hqs_head : ∀ r : PositionReport, qs.head? = some r →
              p.timestamp + 60 ≤ r.timestamp := by
            intro r hr
            have := (List.chain'_cons'.mp hchain).1 r hr
            have : q.timestamp + 60 ≤ r.timestamp := this
            omega
          have := ih p.timestamp qs hps hqs hqs_chain hqs_head
          simpa using Nat.succ_le_succ this
      | cons₂ _ hsub' =>
        -- s = p :: s' with s' <+ ps
        rename_i s'
        have hs'_chain : s'.Chain' gap60 := (List.chain'_cons'.mp hchain).2
        have hs'_head : ∀ r : PositionReport, s'.head? = some r →
            p.timestamp + 60 ≤ r.timestamp :=
          fun r hr => (List.chain'_cons'.mp hchain).1 r hr
        have := ih p.timestamp s' hps hsub' hs'_chain hs'_head
        simpa using Nat.succ_le_succ this
    · -- p is dropped: its timestamp is within 60s of the last kept point
      rename_i hdrop
      cases hsub with
      | cons _ hsub' =>
        exact ih last s hps hsub' hchain hhead
      | cons₂ _ hsub' =>
        -- s starts with p, but p is too close to the reference: contradiction
        exact absurd (hhead p rfl) hdrop

theorem thinTail_maximal (l : List PositionReport) (hsorted : SortedByTime l)
    (s : List PositionReport) (hsub : s.Sublist l) (hchain : Spaced s) :
    s.length ≤ (thinTail l).length := by
  cases l with
  | nil => simp [List.sublist_nil.mp hsub, thinTail]
  | cons p ps =>
    have hps : SortedByTime ps := (List.pairwise_cons.mp hsorted).2
    have hple : ∀ q ∈ ps, p.timestamp ≤ q.timestamp :=
      fun q hq => (List.pairwise_cons.mp hsorted).1 q hq
    simp only [thinTail]
    cases hsub with
    | cons _ hsub' =>
      cases s with
      | nil => simp
      | cons q qs =>
        have hq_mem : q ∈ ps := hsub'.subset (List.mem_cons_self q qs)
        have hq_ge : p.timestamp ≤ q.timestamp := hple q hq_mem
        have hqs : qs.Sublist ps := (List.sublist_cons_self q qs).trans hsub'
        have hqs_chain : qs.Chain' gap60 := (List.chain'_cons'.mp hchain).2
        have hqs_head : ∀ r : PositionReport, qs.head? = some r →
            p.timestamp + 60 ≤ r.timestamp := by
          intro r hr
          have : q.timestamp + 60 ≤ r.timestamp := (List.chain'_cons'.mp hchain).1 r hr
          omega
        have := thinFrom_maximal ps p.timestamp qs hps hqs hqs_chain hqs_head
        simpa using Nat.succ_le_succ this
    | cons₂ _ hsub' =>
      rename_i s'
      have hs'_chain : s'.Chain' gap60 := (List.chain'_cons'.mp hchain).2
      have hs'_head : ∀ r : PositionReport, s'.head? = some r →
          p.timestamp + 60 ≤ r.timestamp :=
        fun r hr => (List.chain'_cons'.mp hchain).1 r hr
      have := thinFrom_maximal ps p.timestamp s' hps hsub' hs'_chain hs'_head
      simpa using Nat.succ_le_succ this

/-- A report of the scenario window: vessel 1 at second `t`, at the origin. -/
def exReport (t : Int) : PositionReport := ⟨1, t, 0, 0⟩

/-- The spec's thinning scenario: reports at minute 0, 0:30, 1:00, 1:30, 2:00. -/
def thinScenario : List PositionReport :=
  [exReport 0, exReport 30, exReport 60, exReport 90, exReport 120]

/-- Modelled from the spec: the tie-break of §4.3 — a newly scanned
in-window report replaces the best seen so far only when its timestamp is
strictly greater, so the first-inserted report wins a timestamp tie. -/
def betterOf (best : Option PositionReport) (p : PositionReport) : PositionReport :=
  match best with
  | none => p
  | some b => if b.timestamp < p.timestamp then p else b

theorem betterOf_cases (best : Option PositionReport) (p : PositionReport) :
    betterOf best p = p ∨ ∃ b, best = some b ∧ betterOf best p = b := by
  cases best with
  | none => exact Or.inl rfl
  | some b =>
    by_cases hlt : b.timestamp < p.timestamp
    · exact Or.inl (by simp [betterOf, hlt])
    · exact Or.inr ⟨b, rfl, by simp [betterOf, hlt]⟩

theorem le_betterOf_right (best : Option PositionReport) (p : PositionReport) :
    p.timestamp ≤ (betterOf best p).timestamp := by
  cases best with
  | none => simp [betterOf]
  | some b =>
    by_cases hlt : b.timestamp < p.timestamp
    · simp [betterOf, hlt]
    · simp only [betterOf, if_neg hlt]; omega

theorem le_betterOf_left (best : Option PositionReport) (p b : PositionReport)
    (hb : best = some b) : b.timestamp ≤ (betterOf best p).timestamp := by
  subst hb
  by_cases hlt : b.timestamp < p.timestamp
  · simp only [betterOf, if_pos hlt]; omega
  · simp [betterOf, hlt]

/-- Modelled from the spec: the candidate-selection scan (§4.3,
`main.py` absent from src/).  `best` is the best in-window report seen so
far. -/
def pickLatest (ws now : Int) (best : Option PositionReport) :
    List PositionReport → Option PositionReport
  | [] => best
  | p :: ps =>
    if ws ≤ p.timestamp ∧ p.timestamp ≤ now then
      pickLatest ws now (some (betterOf best p)) ps
    else pickLatest ws now best ps

/-- Modelled from the spec: §4.3 — the greatest report of `seq` whose
timestamp lies in `[ws, now]`, or `none` when no report falls in the
window. -/
def selectCandidate (ws now : Int) (seq : List PositionReport) : Option PositionReport :=
  pickLatest ws now none seq

theorem pickLatest_eq_none (ws now : Int) (l : List PositionReport) :
    ∀ best : Option PositionReport,
      (pickLatest ws now best l = none ↔
        best = none ∧ ∀ p ∈ l, ¬(ws ≤ p.timestamp ∧ p.timestamp ≤ now)) := by
  induction l with
  | nil => intro best; simp [pickLatest]
  | cons p ps ih =>
    intro best
    simp only [pickLatest]
    split
    · rename_i hwin
      rw [ih (some (betterOf best p))]
      simp only [List.mem_cons]
      constructor
      · rintro ⟨h, -⟩; exact absurd h (by simp)
      · rintro ⟨-, hall⟩; exact absurd hwin (hall p (Or.inl rfl))
    · rename_i hwin
      rw [ih best]
      simp only [List.mem_cons]
      constructor
      · rintro ⟨hb, hall⟩
        refine ⟨hb, fun q hq => ?_⟩
        rcases hq with rfl | hq
        · exact hwin
        · exact hall q hq
      · rintro ⟨hb, hall⟩
        exact ⟨hb, fun q hq => hall q (Or.inr hq)⟩

theorem pickLatest_some_spec (ws now : Int) (l : List PositionReport) :
    ∀ (best : Option PositionReport) (c : PositionReport),
      pickLatest ws now best l = some c →
      (best = some c ∨ (c ∈ l ∧ ws ≤ c.timestamp ∧ c.timestamp ≤ now)) ∧
      (∀ p ∈ l, ws ≤ p.timestamp → p.timestamp ≤ now → p.timestamp ≤ c.timestamp) ∧
      (∀ b : PositionReport, best = some b → b.timestamp ≤ c.timestamp) := by
  induction l with
  | nil =>
    intro best c h
    simp only [pickLatest] at h
    subst h
    exact ⟨Or.inl rfl, by simp, fun b hb => by simp_all⟩
  | cons p ps ih =>
    intro best c h
    simp only [pickLatest] at h
    split at h
    · rename_i hwin
      obtain ⟨h1, h2, h3⟩ := ih (some (betterOf best p)) c h
      have hbc : (betterOf best p).timestamp ≤ c.timestamp := h3 _ rfl
      have hpc : p.timestamp ≤ c.timestamp :=
        le_trans (le_betterOf_right best p) hbc
      refine ⟨?_, ?_, ?_⟩
      · rcases h1 with heq | ⟨hc, hcw⟩
        · rcases betterOf_cases best p with hbp | ⟨b, hb, hbp⟩
          · refine Or.inr ⟨?_, ?_⟩
            · rw [Option.some.injEq] at heq
              rw [← heq, hbp]
              exact List.mem_cons_self p ps
            · rw [Option.some.injEq] at heq
              rw [← heq, hbp]
              exact hwin
          · rw [Option.some.injEq] at heq
            exact Or.inl (by rw [hb, ← heq, hbp])
        · exact Or.inr ⟨List.mem_cons_of_mem p hc, hcw⟩
      · intro q hq hq1 hq2
        rcases List.mem_cons.mp hq with rfl | hq
        · exact hpc
        · exact h2 q hq hq1 hq2
      · intro b hb
        exact le_trans (le_betterOf_left best p b hb) hbc
    · rename_i hwin
      obtain ⟨h1, h2, h3⟩ := ih best c h
      refine ⟨?_, ?_, h3⟩
      · rcases h1 with heq | ⟨hc, hcw⟩
        · exact Or.inl heq
        · exact Or.inr ⟨List.mem_cons_of_mem p hc, hcw⟩
      · intro q hq hq1 hq2
        rcases List.mem_cons.mp hq with rfl | hq
        · exact absurd ⟨hq1, hq2⟩ hwin
        · exact h2 q hq hq1 hq2

theorem selectCandidate_eq_none (ws now : Int) (seq : List PositionReport) :
    selectCandidate ws now seq = none ↔
      ∀ p ∈ seq, ¬(ws ≤ p.timestamp ∧ p.timestamp ≤ now) := by
  rw [selectCandidate, pickLatest_eq_none]
  simp

theorem selectCandidate_some (ws now : Int) (seq : List PositionReport)
    (c : PositionReport) (h : selectCandidate ws now seq = some c) :
    c ∈ seq ∧ ws ≤ c.timestamp ∧ c.timestamp ≤ now ∧
      ∀ p ∈ seq, ws ≤ p.timestamp → p.timestamp ≤ now → p.timestamp ≤ c.timestamp := by
  obtain ⟨h1, h2, -⟩ := pickLatest_some_spec ws now seq none c h
  rcases h1 with heq | ⟨hc, hw1, hw2⟩
  · cases heq
  · exact ⟨hc, hw1, hw2, h2⟩

/-- Modelled from the spec: a raw ingested record (§3); `timestamp = none`
stands for an unparseable timestamp, dropped during ingestion. -/
structure RawRecord where
  vesselId : Nat
  timestamp : Option Int
  lat : ℚ
  lon : ℚ
deriving DecidableEq, Repr

/-- Modelled from the spec: record validation — a raw record yields a typed
report exactly when its timestamp parses. -/
def toReport (r : RawRecord) : Option PositionReport :=
  r.timestamp.map fun t => ⟨r.vesselId, t, r.lat, r.lon⟩

/-- The validated record set: raw records with unparseable timestamps are
skipped, not fatal. -/
def validReports (raw : List RawRecord) : List PositionReport :=
  raw.filterMap toReport

/-- Modelled from the spec: the Track Index (§3) — vessel identifier to
sorted report sequence, plus the dataset's maximum timestamp. -/
structure TrackIndex where
  tracks : List (Nat × List PositionReport)
  datasetMaxTs : Int
deriving DecidableEq, Repr

/-- Modelled from the spec: the engine's error taxonomy (§7). -/
inductive EngineError where
  | DataLoadError
  | InvalidQueryError
deriving DecidableEq, Repr

/-- Modelled from the spec: Track Index construction (§4.1) — group the
validated records by vessel, sort each group ascending by timestamp with a
stable sort (first-seen wins a timestamp tie), record the maximum
timestamp; fail with `DataLoadError` when no usable record exists. -/
def buildIndex (raw : List RawRecord) : Except EngineError TrackIndex :=
  match validReports raw with
  | [] => .error .DataLoadError
  | r0 :: rest => .ok
      { tracks :=
          ((r0 :: rest).map PositionReport.vesselId).dedup.map fun v =>
            (v, List.insertionSort tsLE
                  ((r0 :: rest).filter fun p => decide (p.vesselId = v)))
        datasetMaxTs := rest.foldl (fun m p => max m p.timestamp) r0.timestamp }

/-- Modelled from the spec: per-vessel response data (§3): the vessel, its
selected latest position and its thinned tail, oldest first. -/
structure ShipData where
  vesselId : Nat
  latest : PositionReport
  tail : List PositionReport
deriving DecidableEq, Repr

/-- Whether a report's timestamp lies in the tail window
`[tLatest − tail_hours, tLatest]` (§4.5 step 1). -/
def inTailWindow (tLatest : Int) (tailHours : ℚ) (p : PositionReport) : Bool :=
  decide ((tLatest : ℚ) - tailHours * 3600 ≤ (p.timestamp : ℚ)) &&
    decide (p.timestamp ≤ tLatest)

/-- Modelled from the spec: the Tail Builder (§4.5, `main.py` absent from
src/) — window the sequence to `[tLatest − tail_hours, tLatest]`, then thin
it with the 60-second greedy pass. -/
def buildTail (seq : List PositionReport) (tLatest : Int) (tailHours : ℚ) :
    List PositionReport :=
  thinTail (seq.filter (inTailWindow tLatest tailHours))

/-- Modelled from the spec: the per-vessel body of the query loop
(§4.6 steps 3–5): select a candidate in the sim window, filter by distance,
build the tail from the candidate's own timestamp. -/
def vesselMatch {α : Type} [LinearOrderedField α]
    [DecidableRel ((· ≤ ·) : α → α → Prop)]
    (dist : ℚ → ℚ → ℚ → ℚ → α) (clat clon : ℚ) (radius : α) (tailHours : ℚ)
    (ws now : Int) (entry : Nat × List PositionReport) : Option ShipData :=
  match selectCandidate ws now entry.2 with
  | none => none
  | some c =>
    if dist clat clon c.lat c.lon ≤ radius then
      some ⟨entry.1, c, buildTail entry.2 c.timestamp tailHours⟩
    else none

/-- Modelled from the spec: the matches of one query (§4.6 steps 3–5) over
every vessel of the index. -/
def queryResults {α : Type} [LinearOrderedField α]
    [DecidableRel ((· ≤ ·) : α → α → Prop)]
    (dist : ℚ → ℚ → ℚ → ℚ → α) (idx : TrackIndex) (clat clon : ℚ) (radius : α)
    (tailHours : ℚ) (ws now : Int) : List ShipData :=
  idx.tracks.filterMap (vesselMatch dist clat clon radius tailHours ws now)

/-- Modelled from the spec: the outcome of one query (§4.6 step 6, §7):
a validation failure, the distinct `NoMatches` outcome, or the matches. -/
inductive QueryOutcome where
  | failure (e : EngineError)
  | noMatches
  | matches (ships : List ShipData)
deriving DecidableEq, Repr

/-- Modelled from the spec: the Query Engine's public operation
(§4.6, `main.py` absent from src/).  Parameters are validated first;
`simulated_now` is `datasetMaxTs + elapsed` (§3, §4.2) computed once per
query; the sim window is the trailing `simWindowMinutes` minutes. -/
def runQuery {α : Type} [LinearOrderedField α]
    [DecidableRel ((· ≤ ·) : α → α → Prop)]
    (dist : ℚ → ℚ → ℚ → ℚ → α) (idx : TrackIndex) (clat clon : ℚ) (radius : α)
    (tailHours : ℚ) (simWindowMinutes : Int) (elapsed : Int) : QueryOutcome :=
  if radius ≤ 0 ∨ tailHours ≤ 0 ∨ simWindowMinutes ≤ 0 then
    .failure .InvalidQueryError
  else
    let simNow := idx.datasetMaxTs + elapsed
    let ws := simNow - simWindowMinutes * 60
    let rs := queryResults dist idx clat clon radius tailHours ws simNow
    if rs.isEmpty then .noMatches else .matches rs

/-- The ships of an outcome: a failure or `NoMatches` carries none. -/
def resultsOf : QueryOutcome → List ShipData
  | .matches ships => ships
  | _ => []

/-- Modelled from the spec: the process-wide state after startup (§5) —
either permanently unavailable after a failed index construction, or ready
with the immutable index. -/
inductive EngineState where
  | unavailable
  | ready (idx : TrackIndex)
deriving DecidableEq, Repr

/-- Modelled from the spec: startup — build the index once; a
`DataLoadError` leaves the engine permanently unavailable. -/
def initEngine (raw : List RawRecord) : EngineState :=
  match buildIndex raw with
  | .error _ => .unavailable
  | .ok idx => .ready idx

/-- Modelled from the spec: what the serving boundary reports (§5, §6):
unavailability is checked before any query computation is dispatched. -/
inductive ServeOutcome where
  | unavailable
  | answered (o : QueryOutcome)
deriving DecidableEq, Repr

/-- Modelled from the spec: the serving layer — refuse queries while
unavailable, otherwise run the query against the index. -/
def serve {α : Type} [LinearOrderedField α]
    [DecidableRel ((· ≤ ·) : α → α → Prop)]
    (dist : ℚ → ℚ → ℚ → ℚ → α) (st : EngineState) (clat clon : ℚ) (radius : α)
    (tailHours : ℚ) (simWindowMinutes : Int) (elapsed : Int) : ServeOutcome :=
  match st with
  | .unavailable => .unavailable
  | .ready idx =>
    .answered (runQuery dist idx clat clon radius tailHours simWindowMinutes elapsed)

theorem mem_queryResults {α : Type} [LinearOrderedField α]
    [DecidableRel ((· ≤ ·) : α → α → Prop)]
    (dist : ℚ → ℚ → ℚ → ℚ → α) (idx : TrackIndex) (clat clon : ℚ) (radius : α)
    (tailHours : ℚ) (ws now : Int) (s : ShipData) :
    s ∈ queryResults dist idx clat clon radius tailHours ws now ↔
      ∃ v seq c, (v, seq) ∈ idx.tracks ∧ selectCandidate ws now seq = some c ∧
        dist clat clon c.lat c.lon ≤ radius ∧
        s = ⟨v, c, buildTail seq c.timestamp tailHours⟩ := by
  rw [queryResults, List.mem_filterMap]
  constructor
  · rintro ⟨⟨v, seq⟩, hmem, hf⟩
    rw [vesselMatch] at hf
    rcases hsel : selectCandidate ws now seq with _ | c
    · rw [hsel] at hf; cases hf
    · rw [hsel] at hf
      replace hf : (if dist clat clon c.lat c.lon ≤ radius then
          some (⟨v, c, buildTail seq c.timestamp tailHours⟩ : ShipData)
          else none) = some s := hf
      by_cases hd : dist clat clon c.lat c.lon ≤ radius
      · rw [if_pos hd, Option.some.injEq] at hf
        exact ⟨v, seq, c, hmem, hsel, hd, hf.symm⟩
      · rw [if_neg hd] at hf; cases hf
  · rintro ⟨v, seq, c, hmem, hsel, hd, rfl⟩
    refine ⟨(v, seq), hmem, ?_⟩
    rw [vesselMatch]
    simp only [hsel, if_pos hd]

theorem mem_resultsOf_runQuery {α : Type} [LinearOrderedField α]
    [DecidableRel ((· ≤ ·) : α → α → Prop)]
    (dist : ℚ → ℚ → ℚ → ℚ → α) (idx : TrackIndex) (clat clon : ℚ) (radius : α)
    (tailHours : ℚ) (simWindowMinutes elapsed : Int) (s : ShipData) :
    s ∈ resultsOf (runQuery dist idx clat clon radius tailHours simWindowMinutes elapsed) ↔
      ¬(radius ≤ 0 ∨ tailHours ≤ 0 ∨ simWindowMinutes ≤ 0) ∧
      s ∈ queryResults dist idx clat clon radius tailHours
            (idx.datasetMaxTs + elapsed - simWindowMinutes * 60)
            (idx.datasetMaxTs + elapsed) := by
  rw [runQuery]
  by_cases hval : radius ≤ 0 ∨ tailHours ≤ 0 ∨ simWindowMinutes ≤ 0
  · rw [if_pos hval]
    simp [resultsOf, hval]
  · rw [if_neg hval]
    simp only
    rcases hrs : queryResults dist idx clat clon radius tailHours
        (idx.datasetMaxTs + elapsed - simWindowMinutes * 60)
        (idx.datasetMaxTs + elapsed) with _ | ⟨s0, rs0⟩
    · simp [hrs, resultsOf, hval]
    · simp only [hrs, List.isEmpty_cons, if_neg Bool.false_ne_true, resultsOf]
      simp [hval]

/-- The two-argument arctangent, as used by the spec's distance formula. -/
noncomputable def atan2 (y x : ℝ) : ℝ :=
  if 0 < x then Real.arctan (y / x)
  else if x < 0 then
    (if 0 ≤ y then Real.arctan (y / x) + Real.pi else Real.arctan (y / x) - Real.pi)
  else
    (if 0 < y then Real.pi / 2 else if y < 0 then -(Real.pi / 2) else 0)

/-- Modelled from the spec: the haversine great-circle distance of §4.4
with fixed Earth radius 6371.0 km (`main.py` absent from src/); the degree
coordinates are converted to radians before the trigonometric formula. -/
noncomputable def haversine (lat1 lon1 lat2 lon2 : ℝ) : ℝ :=
  let rlat1 := lat1 * Real.pi / 180
  let rlat2 := lat2 * Real.pi / 180
  let dlat := (lat2 - lat1) * Real.pi / 180
  let dlon := (lon2 - lon1) * Real.pi / 180
  let a := Real.sin (dlat / 2) ^ 2 +
    Real.cos rlat1 * Real.cos rlat2 * Real.sin (dlon / 2) ^ 2
  2 * 6371.0 * atan2 (Real.sqrt a) (Real.sqrt (1 - a))

/-- The haversine distance on the engine's rational coordinates. -/
noncomputable def haversineDist (lat1 lon1 lat2 lon2 : ℚ) : ℝ :=
  haversine (lat1 : ℝ) (lon1 : ℝ) (lat2 : ℝ) (lon2 : ℝ)

/-- The tracks an index-construction result stores: a failed construction
stores none. -/
def tracksOf : Except EngineError TrackIndex → List (Nat × List PositionReport)
  | .ok idx => idx.tracks
  | .error _ => []

theorem buildIndex_error_iff (raw : List RawRecord) :
    buildIndex raw = .error EngineError.DataLoadError ↔ validReports raw = [] := by
  rcases hv : validReports raw with _ | ⟨r0, rest⟩
  · simp [buildIndex, hv]
  · simp [buildIndex, hv]

theorem validReports_eq_nil (raw : List RawRecord) :
    validReports raw = [] ↔ ∀ r ∈ raw, r.timestamp = none := by
  rw [validReports, List.filterMap_eq_nil_iff]
  constructor
  · intro h r hr
    have := h r hr
    rwa [toReport, Option.map_eq_none'] at this
  · intro h r hr
    rw [toReport, Option.map_eq_none']
    exact h r hr

end SeaWatcher

namespace ReportForm

/-- The logged-in user of the ship report form
(`ship-report-form.tsx`, `ShipReportFormProps`). -/
structure ReportUser where
  id : String
  name : String
  score : Nat
deriving DecidableEq, Repr

/-- The payload `handleSubmit` builds for the `/submit_ship` request
(`ship-report-form.tsx` lines 206–216). -/
structure ShipReportPayload where
  source_account_id : String
  timestamp : String
  latitude : Option ℚ
  longitude : Option ℚ
  picture_url : Option String
  description : Option String
  activity_type : Option String
  vessel_heading : Option String
  vessel_registry : Option String
deriving DecidableEq, Repr

/-- JavaScript `s || undefined` on a string field: the empty string is
replaced by `undefined`. -/
def orUndefined (s : String) : Option String :=
  if s = "" then none else some s

/-- The payload of `handleSubmit` (lines 206–216): `user?.id || "anonymous"`,
optional coordinates from the captured location, the base64 image when one
was attached, and `|| undefined` on the free-text fields. -/
def mkPayload (user : Option ReportUser) (timestamp : String)
    (location : Option (ℚ × ℚ)) (base64Image : Option String)
    (description activityType vesselHeading vesselRegistry : String) :
    ShipReportPayload :=
  { source_account_id :=
      match user with
      | none => "anonymous"
      | some u => if u.id = "" then "anonymous" else u.id
    timestamp := timestamp
    latitude := location.map Prod.fst
    longitude := location.map Prod.snd
    picture_url := base64Image
    description := orUndefined description
    activity_type := orUndefined activityType
    vessel_heading := orUndefined vesselHeading
    vessel_registry := orUndefined vesselRegistry }

/-- What the synchronous validation phase of `handleSubmit` produces: the
form error it sets, and the request it issues (none when it returns before
the network call). -/
structure SubmitEffect where
  formError : Option String
  request : Option ShipReportPayload
deriving DecidableEq, Repr

/-- `handleSubmit` (`ship-report-form.tsx` lines 183–227): with neither an
image nor a location it sets the form error and returns before issuing any
request; otherwise it builds the payload and sends it.  `image` stands for
the attached image's base64 data. -/
def handleSubmit (user : Option ReportUser) (image : Option String)
    (location : Option (ℚ × ℚ)) (timestamp : String)
    (description activityType vesselHeading vesselRegistry : String) :
    SubmitEffect :=
  if image.isNone && location.isNone then
    { formError := some "Either an image or location is required to submit a report"
      request := none }
  else
    { formError := none
      request := some (mkPayload user timestamp location image description
        activityType vesselHeading vesselRegistry) }

/-- The submit button's `disabled` attribute
(`ship-report-form.tsx` line 517): `isSubmitting || (!image && !location)`. -/
def submitDisabled (isSubmitting : Bool) (image : Option String)
    (location : Option (ℚ × ℚ)) : Bool :=
  isSubmitting || (image.isNone && location.isNone)

/-- One rendered star of the observer-status row. -/
inductive StarGlyph where
  | filled
  | empty
deriving DecidableEq, Repr

/-- `renderStars` (`ship-report-form.tsx` lines 274–293): push
`min score 5` filled stars, then empty stars up to `maxDisplayedStars = 5`. -/
def renderStars (score : Nat) : List StarGlyph :=
  let maxDisplayedStars := 5
  let fullStars := min score maxDisplayedStars
  List.replicate fullStars StarGlyph.filled ++
    List.replicate (maxDisplayedStars - fullStars) StarGlyph.empty

end ReportForm

namespace SeaWatcher

/-- C1: The Tail Builder's thinning step, applied to the windowed sub-range
of a vessel's sorted report sequence, produces the maximal-length ordered
subsequence whose consecutive kept points are at least 60 seconds apart,
via a single left-to-right greedy pass that always keeps the first point
and never resets the reference point; in particular the window with
reports at minutes 0, 0:30, 1:00, 1:30 and 2:00 thins to the reports at
0, 1:00 and 2:00. -/
theorem thin_tail_greedy_maximal (l : List PositionReport)
    (hsorted : SortedByTime l) :
    (thinTail l).Sublist l ∧ Spaced (thinTail l) ∧
    (thinTail l).head? = l.head? ∧
    (∀ s : List PositionReport, s.Sublist l → Spaced s →
      s.length ≤ (thinTail l).length) ∧
    buildTail thinScenario 120 24 = [exReport 0, exReport 60, exReport 120] := by
  refine ⟨thinTail_sublist l, thinTail_spaced l, thinTail_head l,
    fun s hs hsp => thinTail_maximal l hsorted s hs hsp, ?_⟩
  have hfil : thinScenario.filter (inTailWindow 120 24) = thinScenario := by
    norm_num [thinScenario, exReport, inTailWindow, List.filter]
  rw [buildTail, hfil]
  decide

/-- Witness for C1 at the spec's concrete five-report window. -/
theorem thin_tail_greedy_maximal_witness :
    SortedByTime thinScenario ∧
    ((thinTail thinScenario).Sublist thinScenario ∧ Spaced (thinTail thinScenario) ∧
     (thinTail thinScenario).head? = thinScenario.head? ∧
     (∀ s : List PositionReport, s.Sublist thinScenario → Spaced s →
       s.length ≤ (thinTail thinScenario).length) ∧
     buildTail thinScenario 120 24 = [exReport 0, exReport 60, exReport 120]) :=
  ⟨by decide, thin_tail_greedy_maximal thinScenario (by decide)⟩

/-- C2: In every query result, every returned tail has all adjacent pairs at
least 60 seconds apart (vacuously for empty and single-point tails), and a
window with no reports in range yields the empty tail as a valid value,
not an error. -/
theorem tail_spacing_invariant {α : Type} [LinearOrderedField α]
    [DecidableRel ((· ≤ ·) : α → α → Prop)]
    (dist : ℚ → ℚ → ℚ → ℚ → α) (idx : TrackIndex) (clat clon : ℚ) (radius : α)
    (tailHours : ℚ) (simWindowMinutes elapsed : Int)
    (seq : List PositionReport) (tLatest : Int) (hrs : ℚ) :
    (∀ s ∈ resultsOf (runQuery dist idx clat clon radius tailHours
        simWindowMinutes elapsed), s.tail.Chain' gap60) ∧
    ((∀ p ∈ seq, inTailWindow tLatest hrs p = false) →
      buildTail seq tLatest hrs = []) := by
  constructor
  · intro s hs
    rw [mem_resultsOf_runQuery, mem_queryResults] at hs
    obtain ⟨-, v, seq0, c, -, -, -, rfl⟩ := hs
    exact thinTail_spaced _
  · intro hall
    rw [buildTail]
    have hnil : seq.filter (inTailWindow tLatest hrs) = [] := by
      rw [List.filter_eq_nil_iff]
      intro p hp
      simp [hall p hp]
    rw [hnil]
    rfl

/-- C3: Tail thinning is idempotent — re-thinning an already-thinned tail
with the same 60-second threshold returns it unchanged. -/
theorem thin_tail_idempotent (l s : List PositionReport) :
    thinTail (thinTail l) = thinTail l ∧ (Spaced s → thinTail s = s) :=
  ⟨thinTail_of_spaced _ (thinTail_spaced l), fun h => thinTail_of_spaced s h⟩

/-- C4: With the haversine distance (fixed Earth radius 6371.0 km), a
vessel is included in the results iff its selected latest position is
within the query radius: every returned vessel is within `radius` of the
center, and no vessel that satisfies the sim-window candidacy rule and lies
within `radius` is excluded. -/
theorem haversine_radius_inclusion (idx : TrackIndex) (clat clon : ℚ)
    (radius : ℝ) (tailHours : ℚ) (simWindowMinutes elapsed : Int)
    (s : ShipData) :
    s ∈ resultsOf (runQuery haversineDist idx clat clon radius tailHours
        simWindowMinutes elapsed) ↔
      0 < radius ∧ 0 < tailHours ∧ 0 < simWindowMinutes ∧
      ∃ v seq, (v, seq) ∈ idx.tracks ∧
        selectCandidate (idx.datasetMaxTs + elapsed - simWindowMinutes * 60)
          (idx.datasetMaxTs + elapsed) seq = some s.latest ∧
        haversineDist clat clon s.latest.lat s.latest.lon ≤ radius ∧
        s = ⟨v, s.latest, buildTail seq s.latest.timestamp tailHours⟩ := by
  rw [mem_resultsOf_runQuery, mem_queryResults]
  constructor
  · rintro ⟨hval, v, seq, c, hmem, hsel, hd, rfl⟩
    push_neg at hval
    exact ⟨hval.1, hval.2.1, hval.2.2, v, seq, hmem, hsel, hd, rfl⟩
  · rintro ⟨h1, h2, h3, v, seq, hmem, hsel, hd, hs⟩
    refine ⟨?_, v, seq, s.latest, hmem, hsel, hd, hs⟩
    push_neg
    exact ⟨h1, h2, h3⟩

/-- C5: The selected latest position is the greatest-timestamp report whose
timestamp lies in `[simulated_now − sim_window, simulated_now]`; a track
with no report in the window has no candidate and its vessel is excluded
from the results; in particular with a 60-minute sim window a vessel whose
only report is 90 minutes old is excluded. -/
theorem candidate_selection_spec {α : Type} [LinearOrderedField α]
    [DecidableRel ((· ≤ ·) : α → α → Prop)]
    (dist : ℚ → ℚ → ℚ → ℚ → α) (idx : TrackIndex) (clat clon : ℚ) (radius : α)
    (tailHours : ℚ) (simWindowMinutes elapsed : Int)
    (ws now : Int) (seq : List PositionReport) (c : PositionReport)
    (s : ShipData) :
    (selectCandidate ws now seq = none ↔
      ∀ p ∈ seq, ¬(ws ≤ p.timestamp ∧ p.timestamp ≤ now)) ∧
    (selectCandidate ws now seq = some c →
      c ∈ seq ∧ ws ≤ c.timestamp ∧ c.timestamp ≤ now ∧
      ∀ p ∈ seq, ws ≤ p.timestamp → p.timestamp ≤ now →
        p.timestamp ≤ c.timestamp) ∧
    (s ∈ resultsOf (runQuery dist idx clat clon radius tailHours
        simWindowMinutes elapsed) →
      ∃ seq0, (s.vesselId, seq0) ∈ idx.tracks ∧
        selectCandidate (idx.datasetMaxTs + elapsed - simWindowMinutes * 60)
          (idx.datasetMaxTs + elapsed) seq0 = some s.latest) ∧
    (selectCandidate 1800 5400 [⟨7, 0, 0, 0⟩] = none ∧
     runQuery (fun _ _ _ _ => (0 : ℚ)) ⟨[(7, [⟨7, 0, 0, 0⟩])], 0⟩ 0 0 1 24 60 5400 =
       QueryOutcome.noMatches) := by
  refine ⟨selectCandidate_eq_none ws now seq,
    fun h => selectCandidate_some ws now seq c h, ?_, by decide, by decide⟩
  intro hs
  rw [mem_resultsOf_runQuery, mem_queryResults] at hs
  obtain ⟨-, v, seq0, c0, hmem, hsel, -, rfl⟩ := hs
  exact ⟨seq0, hmem, hsel⟩

/-- C6: A query with `radius_km ≤ 0`, `tail_hours ≤ 0` or
`sim_window_minutes ≤ 0` — in particular radius 0, tail hours −1 and sim
window 0 — fails with `InvalidQueryError`, and the rejection is independent
of the index (no computation over it). -/
theorem query_validation_rejects {α : Type} [LinearOrderedField α]
    [DecidableRel ((· ≤ ·) : α → α → Prop)]
    (dist : ℚ → ℚ → ℚ → ℚ → α) (idx idx2 : TrackIndex) (clat clon : ℚ)
    (radius : α) (tailHours : ℚ) (simWindowMinutes elapsed : Int) :
    ((radius ≤ 0 ∨ tailHours ≤ 0 ∨ simWindowMinutes ≤ 0) →
      runQuery dist idx clat clon radius tailHours simWindowMinutes elapsed =
        QueryOutcome.failure EngineError.InvalidQueryError ∧
      runQuery dist idx clat clon radius tailHours simWindowMinutes elapsed =
        runQuery dist idx2 clat clon radius tailHours simWindowMinutes elapsed) ∧
    runQuery dist idx clat clon (0 : α) tailHours simWindowMinutes elapsed =
      QueryOutcome.failure EngineError.InvalidQueryError ∧
    runQuery dist idx clat clon radius (-1 : ℚ) simWindowMinutes elapsed =
      QueryOutcome.failure EngineError.InvalidQueryError ∧
    runQuery dist idx clat clon radius tailHours (0 : Int) elapsed =
      QueryOutcome.failure EngineError.InvalidQueryError := by
  refine ⟨fun hval => ?_, ?_, ?_, ?_⟩
  · rw [runQuery, if_pos hval, runQuery, if_pos hval]
    exact ⟨rfl, rfl⟩
  · rw [runQuery, if_pos (Or.inl le_rfl)]
  · rw [runQuery, if_pos (Or.inr (Or.inl (by norm_num)))]
  · rw [runQuery, if_pos (Or.inr (Or.inr le_rfl))]

/-- C7: Index construction fails with `DataLoadError` exactly when no raw
record has a valid timestamp (in particular on the empty record set), and
after such a failure the engine answers every query with unavailability,
running no query computation. -/
theorem build_index_failure_unavailable {α : Type} [LinearOrderedField α]
    [DecidableRel ((· ≤ ·) : α → α → Prop)]
    (dist : ℚ → ℚ → ℚ → ℚ → α) (raw : List RawRecord) (clat clon : ℚ)
    (radius : α) (tailHours : ℚ) (simWindowMinutes elapsed : Int) :
    (buildIndex raw = Except.error EngineError.DataLoadError ↔
      ∀ r ∈ raw, r.timestamp = none) ∧
    ((∀ r ∈ raw, r.timestamp = none) →
      serve dist (initEngine raw) clat clon radius tailHours simWindowMinutes
        elapsed = ServeOutcome.unavailable) ∧
    buildIndex ([] : List RawRecord) = Except.error EngineError.DataLoadError := by
  refine ⟨(buildIndex_error_iff raw).trans (validReports_eq_nil raw),
    fun hall => ?_, by rfl⟩
  have hb : buildIndex raw = Except.error EngineError.DataLoadError :=
    (buildIndex_error_iff raw).mpr ((validReports_eq_nil raw).mpr hall)
  rw [initEngine, hb]
  rfl

/-- C8: After index construction, every stored vessel track is
non-decreasing in timestamp and non-empty, and a vessel with zero valid
records has no entry in the index. -/
theorem track_index_invariants (raw : List RawRecord) (v : Nat)
    (seq : List PositionReport) :
    ((v, seq) ∈ tracksOf (buildIndex raw) →
      List.Sorted tsLE seq ∧ seq ≠ []) ∧
    ((∀ p ∈ validReports raw, p.vesselId ≠ v) →
      (v, seq) ∉ tracksOf (buildIndex raw)) := by
  rcases hv : validReports raw with _ | ⟨r0, rest⟩
  · have hb : buildIndex raw = Except.error EngineError.DataLoadError :=
      (buildIndex_error_iff raw).mpr hv
    rw [hb]
    exact ⟨fun h => absurd h (by simp [tracksOf]), fun _ => by simp [tracksOf]⟩
  · have hb : buildIndex raw = Except.ok
        { tracks :=
            ((r0 :: rest).map PositionReport.vesselId).dedup.map fun w =>
              (w, List.insertionSort tsLE
                    ((r0 :: rest).filter fun p => decide (p.vesselId = w)))
          datasetMaxTs := rest.foldl (fun m p => max m p.timestamp) r0.timestamp } := by
      rw [buildIndex, hv]
    rw [hb]
    simp only [tracksOf]
    constructor
    · intro h
      rw [List.mem_map] at h
      obtain ⟨w, hw, heq⟩ := h
      cases heq
      constructor
      · exact List.sorted_insertionSort tsLE _
      · rw [List.mem_dedup, List.mem_map] at hw
        obtain ⟨p, hp, hpv⟩ := hw
        have hpf : p ∈ (r0 :: rest).filter (fun q => decide (q.vesselId = v)) :=
          List.mem_filter.mpr ⟨hp, by simp [hpv]⟩
        intro hnil
        have hperm := List.perm_insertionSort tsLE
          ((r0 :: rest).filter fun q => decide (q.vesselId = v))
        rw [hnil] at hperm
        rw [List.perm_nil.mp hperm.symm] at hpf
        cases hpf
    · intro hall h
      rw [List.mem_map] at h
      obtain ⟨w, hw, heq⟩ := h
      cases heq
      rw [List.mem_dedup, List.mem_map] at hw
      obtain ⟨p, hp, hpv⟩ := hw
      exact hall p hp hpv

end SeaWatcher

namespace ReportForm

/-- C9: A submission with neither an image nor a captured location is never
sent: `handleSubmit` sets the form error and returns before issuing any
request, and the submit button is disabled whenever both are absent. -/
theorem report_requires_image_or_location (user : Option ReportUser)
    (timestamp description activityType vesselHeading vesselRegistry : String)
    (isSubmitting : Bool) :
    (handleSubmit user none none timestamp description activityType
      vesselHeading vesselRegistry).request = none ∧
    (handleSubmit user none none timestamp description activityType
      vesselHeading vesselRegistry).formError =
      some "Either an image or location is required to submit a report" ∧
    submitDisabled isSubmitting none none = true := by
  refine ⟨rfl, rfl, ?_⟩
  simp [submitDisabled]

/-- C10: For every non-negative user score, `renderStars` returns exactly 5
star elements, of which `min score 5` are filled and the remaining
`5 − min score 5` are empty. -/
theorem render_stars_five (score : Nat) :
    (renderStars score).length = 5 ∧
    (renderStars score).count StarGlyph.filled = min score 5 ∧
    (renderStars score).count StarGlyph.empty = 5 - min score 5 := by
  have hmin : min score 5 ≤ 5 := min_le_right score 5
  refine ⟨?_, ?_, ?_⟩
  · simp only [renderStars, List.length_append, List.length_replicate]
    omega
  · simp [renderStars, List.count_append, List.count_replicate]
  · simp [renderStars, List.count_append, List.count_replicate]

end ReportForm
